import Mathlib

/-!
Verification development for the NBA props scanning engine
(`nba_bettor.py`).  Python floats are modelled as exact rationals (`ℚ`);
the transcendental helpers (`math.exp`, `math.tanh`) are modelled over the
reals.  Python's `round` (banker's rounding, half to even) is modelled by
`pyRound`; `round(x, 2)` by `round2`.
-/

namespace NbaBettor

/-- Python's built-in `round` on a rational: nearest integer, ties to even. -/
def pyRound (q : ℚ) : ℤ :=
  if q - ⌊q⌋ < 1/2 then ⌊q⌋
  else if 1/2 < q - ⌊q⌋ then ⌊q⌋ + 1
  else if 2 ∣ ⌊q⌋ then ⌊q⌋ else ⌊q⌋ + 1

/-- Python's `round(x, 2)`: round to two decimal places, ties to even. -/
def round2 (q : ℚ) : ℚ := (pyRound (q * 100) : ℚ) / 100

/-- Source `clamp(x, lo, hi) = max(lo, min(hi, x))` (`nba_bettor.py`). -/
def clamp (x lo hi : ℚ) : ℚ := max lo (min hi x)

/-- Source `american_to_implied_prob`: `100/(a+100)` for `a ≥ 100`, else
`abs(a)/(abs(a)+100)`. -/
def american_to_implied_prob (a : ℤ) : ℚ :=
  if a ≥ 100 then 100 / ((a : ℚ) + 100)
  else (|a| : ℤ) / ((|a| : ℤ) + 100)

/-- Source `implied_prob_to_american`: clamp the probability to
`[1e-6, 1-1e-6]`, then convert back to an American price. -/
def implied_prob_to_american (p : ℚ) : ℤ :=
  let q := max (1/1000000) (min (1 - 1/1000000) p)
  if q ≥ 1/2 then pyRound (-100 * q / (1 - q)) else pyRound (100 * (1 - q) / q)

/-- Source `american_to_decimal`: `1 + a/100` for `a ≥ 100`, else
`1 + 100/abs(a)`. -/
def american_to_decimal (a : ℤ) : ℚ :=
  if a ≥ 100 then 1 + (a : ℚ) / 100 else 1 + 100 / ((|a| : ℤ) : ℚ)

/-- Source `kelly_fraction`: `max(0, (b·p − q)/b)` for `b = dec − 1 > 0`,
else `0`. -/
def kelly_fraction (p_true dec_odds : ℚ) : ℚ :=
  let b := dec_odds - 1
  let q := 1 - p_true
  if 0 < b then max 0 ((b * p_true - q) / b) else 0

theorem pyRound_intCast (n : ℤ) : pyRound (n : ℚ) = n := by
  simp [pyRound]

theorem pyRound_le_of_le {q r : ℚ} (h : q ≤ r) : pyRound q ≤ pyRound r := by
  unfold pyRound
  have hf : (⌊q⌋ : ℤ) ≤ ⌊r⌋ := Int.floor_le_floor h
  rcases lt_or_eq_of_le hf with hlt | heq
  · -- different floors: left value ≤ ⌊q⌋ + 1 ≤ ⌊r⌋ ≤ right value
    split_ifs <;> omega
  · -- same floor: compare fractional parts
    have hfrac : q - (⌊q⌋ : ℚ) ≤ r - (⌊r⌋ : ℚ) := by
      rw [← heq]; linarith
    split_ifs <;> first | omega | (exfalso; linarith)

theorem pyRound_nonneg {q : ℚ} (h : 0 ≤ q) : 0 ≤ pyRound q := by
  have := pyRound_le_of_le h
  simpa [pyRound] using this

theorem round2_mono {q r : ℚ} (h : q ≤ r) : round2 q ≤ round2 r := by
  unfold round2
  have : pyRound (q * 100) ≤ pyRound (r * 100) :=
    pyRound_le_of_le (by nlinarith)
  have hcast : ((pyRound (q * 100) : ℤ) : ℚ) ≤ ((pyRound (r * 100) : ℤ) : ℚ) := by
    exact_mod_cast this
  linarith

theorem round2_nonneg {q : ℚ} (h : 0 ≤ q) : 0 ≤ round2 q := by
  have := round2_mono h
  simpa [round2, pyRound] using this

theorem round2_intCast (n : ℤ) : round2 (n : ℚ) = (n : ℚ) := by
  have h : ((n : ℚ) * 100) = (((n * 100 : ℤ)) : ℚ) := by push_cast; ring
  rw [round2, h, pyRound_intCast]
  push_cast
  field_simp

/-- C9 counterexample: the even-money price `+100` does not round-trip.
`american_to_implied_prob 100 = 1/2`, and `implied_prob_to_american (1/2)`
takes the `p ≥ 0.5` branch, returning `−100`, not `+100`. -/
theorem C9_roundtrip_counterexample :
    implied_prob_to_american (american_to_implied_prob 100) = -100 ∧
    (-100 : ℤ) ≠ 100 := by
  constructor
  · norm_num [implied_prob_to_american, american_to_implied_prob, pyRound]
  · decide

/-- C9 (amended): the implied-probability round trip
`implied_prob_to_american (american_to_implied_prob a) = a` holds exactly
for every integer American price with `101 ≤ a ≤ 99999900` or
`−99999900 ≤ a ≤ −100`; it fails at `a = +100` (which returns `−100`) and
for magnitudes beyond `99999900` (where the `1e-6` probability clamp in
`implied_prob_to_american` caps the result). -/
theorem C9_roundtrip_amended (a : ℤ)
    (h : (101 ≤ a ∧ a ≤ 99999900) ∨ (-99999900 ≤ a ∧ a ≤ -100)) :
    implied_prob_to_american (american_to_implied_prob a) = a := by
  rcases h with ⟨h1, h2⟩ | ⟨h1, h2⟩
  · -- positive prices strictly above even money
    have ha : a ≥ 100 := by omega
    have hpos : (0 : ℚ) < (a : ℚ) + 100 := by
      have : (0 : ℤ) < a + 100 := by omega
      exact_mod_cast this
    rw [american_to_implied_prob, if_pos ha]
    set p : ℚ := 100 / ((a : ℚ) + 100) with hp
    have hplt : p < 1/2 := by
      rw [hp, div_lt_iff hpos]
      have : (200 : ℤ) < a + 100 := by omega
      have : (200 : ℚ) < (a : ℚ) + 100 := by exact_mod_cast this
      linarith
    have hple : p ≤ 1 - 1/1000000 := by linarith
    have hpge : 1/1000000 ≤ p := by
      rw [hp, le_div_iff hpos]
      have : ((a : ℚ) + 100) ≤ 100000000 := by
        have : (a : ℤ) + 100 ≤ 100000000 := by omega
        exact_mod_cast this
      linarith
    rw [implied_prob_to_american]
    have hmin : min (1 - 1/1000000) p = p := min_eq_right hple
    have hmax : max (1/1000000 : ℚ) p = p := max_eq_right hpge
    simp only [hmin, hmax]
    rw [if_neg (by linarith : ¬ p ≥ 1/2)]
    have hpne : p ≠ 0 := by positivity
    have hval : 100 * (1 - p) / p = (a : ℚ) := by
      rw [hp]
      field_simp
    rw [hval, pyRound_intCast]
  · -- negative prices at or below −100
    have ha : ¬ a ≥ 100 := by omega
    have habs : |a| = -a := abs_of_nonpos (by omega)
    have hpos : (0 : ℚ) < ((|a| : ℤ) : ℚ) + 100 := by
      have : (0 : ℤ) < |a| + 100 := by positivity
      exact_mod_cast this
    rw [american_to_implied_prob, if_neg ha]
    set p : ℚ := ((|a| : ℤ) : ℚ) / (((|a| : ℤ) : ℚ) + 100) with hp
    have h100 : (100 : ℤ) ≤ |a| := by omega
    have h100q : (100 : ℚ) ≤ ((|a| : ℤ) : ℚ) := by exact_mod_cast h100
    have hpge : 1/2 ≤ p := by
      rw [hp, le_div_iff hpos]
      linarith
    have hple : p ≤ 1 - 1/1000000 := by
      rw [hp, div_le_iff hpos]
      have : ((|a| : ℤ) : ℚ) ≤ 99999900 := by
        have : |a| ≤ (99999900 : ℤ) := by omega
        exact_mod_cast this
      nlinarith
    rw [implied_prob_to_american]
    have hmin : min (1 - 1/1000000) p = p := min_eq_right hple
    have hmax : max (1/1000000 : ℚ) p = p := max_eq_right (by linarith)
    simp only [hmin, hmax]
    rw [if_pos hpge]
    have hne : ((|a| : ℤ) : ℚ) + 100 ≠ 0 := ne_of_gt hpos
    have h1p : 1 - p = 100 / (((|a| : ℤ) : ℚ) + 100) := by
      rw [hp]; field_simp
    have hval : -100 * p / (1 - p) = ((-|a| : ℤ) : ℚ) := by
      rw [h1p, hp]
      push_cast
      field_simp
      ring
    rw [hval, pyRound_intCast]
    omega

/-- C9 witness: the amended round-trip theorem applied at the concrete
price `−110`. -/
theorem C9_roundtrip_witness :
    implied_prob_to_american (american_to_implied_prob (-110)) = -110 :=
  C9_roundtrip_amended (-110) (Or.inr (by constructor <;> decide))

/-- Source `TEAM_ALIASES` dict, transcribed entry by entry. -/
def TEAM_ALIASES : List (String × String) := [
  ("atlanta hawks", "ATL"), ("hawks", "ATL"), ("atl", "ATL"),
  ("boston celtics", "BOS"), ("celtics", "BOS"), ("bos", "BOS"),
  ("brooklyn nets", "BKN"), ("nets", "BKN"), ("bkn", "BKN"), ("brooklyn", "BKN"),
  ("charlotte hornets", "CHA"), ("hornets", "CHA"), ("cha", "CHA"), ("charlotte", "CHA"),
  ("chicago bulls", "CHI"), ("bulls", "CHI"), ("chi", "CHI"),
  ("cleveland cavaliers", "CLE"), ("cavaliers", "CLE"), ("cavs", "CLE"), ("cle", "CLE"),
  ("detroit pistons", "DET"), ("pistons", "DET"), ("det", "DET"),
  ("indiana pacers", "IND"), ("pacers", "IND"), ("ind", "IND"),
  ("miami heat", "MIA"), ("heat", "MIA"), ("mia", "MIA"),
  ("milwaukee bucks", "MIL"), ("bucks", "MIL"), ("mil", "MIL"),
  ("new york knicks", "NYK"), ("knicks", "NYK"), ("nyk", "NYK"), ("new york", "NYK"),
  ("orlando magic", "ORL"), ("magic", "ORL"), ("orl", "ORL"),
  ("philadelphia 76ers", "PHI"), ("76ers", "PHI"), ("sixers", "PHI"), ("phi", "PHI"),
  ("philadelphia", "PHI"),
  ("toronto raptors", "TOR"), ("raptors", "TOR"), ("tor", "TOR"),
  ("washington wizards", "WAS"), ("wizards", "WAS"), ("was", "WAS"), ("washington", "WAS"),
  ("dallas mavericks", "DAL"), ("mavericks", "DAL"), ("mavs", "DAL"), ("dal", "DAL"),
  ("denver nuggets", "DEN"), ("nuggets", "DEN"), ("den", "DEN"),
  ("golden state warriors", "GSW"), ("warriors", "GSW"), ("gsw", "GSW"),
  ("golden state", "GSW"),
  ("houston rockets", "HOU"), ("rockets", "HOU"), ("hou", "HOU"),
  ("los angeles clippers", "LAC"), ("la clippers", "LAC"), ("clippers", "LAC"), ("lac", "LAC"),
  ("los angeles lakers", "LAL"), ("la lakers", "LAL"), ("lakers", "LAL"), ("lal", "LAL"),
  ("memphis grizzlies", "MEM"), ("grizzlies", "MEM"), ("mem", "MEM"),
  ("minnesota timberwolves", "MIN"), ("timberwolves", "MIN"), ("wolves", "MIN"), ("min", "MIN"),
  ("new orleans pelicans", "NOP"), ("pelicans", "NOP"), ("pels", "NOP"), ("nop", "NOP"),
  ("new orleans", "NOP"),
  ("oklahoma city thunder", "OKC"), ("thunder", "OKC"), ("okc", "OKC"),
  ("phoenix suns", "PHX"), ("suns", "PHX"), ("phx", "PHX"),
  ("portland trail blazers", "POR"), ("trail blazers", "POR"), ("blazers", "POR"), ("por", "POR"),
  ("sacramento kings", "SAC"), ("kings", "SAC"), ("sac", "SAC"),
  ("san antonio spurs", "SAS"), ("spurs", "SAS"), ("sas", "SAS"),
  ("utah jazz", "UTA"), ("jazz", "UTA"), ("uta", "UTA")]

/-- Python `s.strip()` on a character list (whitespace only, as in the
source call sites). -/
def pyStrip (s : List Char) : List Char :=
  ((s.dropWhile Char.isWhitespace).reverse.dropWhile Char.isWhitespace).reverse

/-- Python `s.split()` with no argument: split on whitespace runs, no
empty fields. -/
def pySplit (s : List Char) : List (List Char) :=
  (s.splitOnP Char.isWhitespace).filter (· ≠ [])

/-- Source `team_key`: lower-case and strip the name, delete periods, turn
hyphens into spaces, collapse whitespace, then look the result up in
`TEAM_ALIASES`, defaulting to the upper-cased string. -/
def team_key (name : String) : String :=
  let s := (pyStrip name.data).map Char.toLower
  let t := (s.filter (· ≠ '.')).map (fun c => if c = '-' then ' ' else c)
  let joined := String.mk (List.intercalate [' '] (pySplit t))
  match TEAM_ALIASES.lookup joined with
  | some v => v
  | none => String.mk (joined.data.map Char.toUpper)

/-- Source `clamp` at real type (used with `math.tanh` results). -/
def clampR (x lo hi : ℝ) : ℝ := max lo (min hi x)

/-- Source `team_pressure_scores`, with the team-injury-pressure map
(produced by `team_injury_pressure_map` from the injury feed) passed
explicitly as an association list `canonical team code ↦ pressure`.
Returns `(t, o, diff, bump)`. -/
noncomputable def team_pressure_scores (m : List (String × ℤ))
    (team_name opponent_name : String) : ℤ × ℤ × ℤ × ℝ :=
  let t := (m.lookup (team_key team_name)).getD 0
  let o := (m.lookup (team_key opponent_name)).getD 0
  let diff := o - t
  if t = 0 ∧ o = 0 then (0, 0, 0, 0)
  else
    let max_pressure : ℤ := max 1 (max t o)
    let relative_diff : ℝ := (diff : ℝ) / (max_pressure : ℝ)
    let bump := Real.tanh (relative_diff * 1) * 0.04
    (t, o, diff, clampR bump (-0.05) 0.05)

theorem clampR_mem {x lo hi : ℝ} (h : lo ≤ hi) :
    lo ≤ clampR x lo hi ∧ clampR x lo hi ≤ hi := by
  constructor
  · exact le_max_left _ _
  · exact max_le h (min_le_left _ _)

theorem clampR_neg {x c : ℝ} (hc : 0 ≤ c) :
    clampR (-x) (-c) c = -clampR x (-c) c := by
  simp only [clampR, max_def, min_def]
  split_ifs <;> linarith

/-- C10: for every state of the team-injury-pressure map and every pair of
team names, the bump returned by `team_pressure_scores` lies in
`[−0.05, 0.05]`; it is exactly `0` when both teams' pressure scores are
`0`; and swapping the two team names negates both the returned pressure
differential and the returned bump. -/
theorem C10_team_pressure_bump (m : List (String × ℤ)) (team opp : String) :
    (-0.05 ≤ (team_pressure_scores m team opp).2.2.2 ∧
      (team_pressure_scores m team opp).2.2.2 ≤ 0.05) ∧
    ((team_pressure_scores m team opp).1 = 0 ∧
        (team_pressure_scores m team opp).2.1 = 0 →
      (team_pressure_scores m team opp).2.2.2 = 0) ∧
    ((team_pressure_scores m opp team).2.2.1 =
        -(team_pressure_scores m team opp).2.2.1 ∧
      (team_pressure_scores m opp team).2.2.2 =
        -(team_pressure_scores m team opp).2.2.2) := by
  by_cases h : ((m.lookup (team_key team)).getD 0 = 0 ∧
      (m.lookup (team_key opp)).getD 0 = 0)
  · have h' : ((m.lookup (team_key opp)).getD 0 = 0 ∧
        (m.lookup (team_key team)).getD 0 = 0) := ⟨h.2, h.1⟩
    simp only [team_pressure_scores, if_pos h, if_pos h']
    norm_num
  · have h' : ¬ ((m.lookup (team_key opp)).getD 0 = 0 ∧
        (m.lookup (team_key team)).getD 0 = 0) := fun hc => h ⟨hc.2, hc.1⟩
    simp only [team_pressure_scores, if_neg h, if_neg h']
    set t := (m.lookup (team_key team)).getD 0 with ht
    set o := (m.lookup (team_key opp)).getD 0 with ho
    refine ⟨clampR_mem (by norm_num), fun hz => absurd hz h, by ring, ?_⟩
    have hmax : max 1 (max o t) = max 1 (max t o) := by rw [max_comm o t]
    rw [hmax]
    have harg : ((t - o : ℤ) : ℝ) / ((max 1 (max t o) : ℤ) : ℝ) * 1 =
        -(((o - t : ℤ) : ℝ) / ((max 1 (max t o) : ℤ) : ℝ) * 1) := by
      push_cast
      ring
    rw [harg, Real.tanh_neg]
    have hb : -Real.tanh (((o - t : ℤ) : ℝ) / ((max 1 (max t o) : ℤ) : ℝ) * 1) * 0.04 =
        -(Real.tanh (((o - t : ℤ) : ℝ) / ((max 1 (max t o) : ℤ) : ℝ) * 1) * 0.04) := by
      ring
    rw [hb, clampR_neg (by norm_num : (0:ℝ) ≤ 0.05)]

/-- C10 witness: on the empty pressure map both scores are `0` and the
returned bump is exactly `0`. -/
theorem C10_team_pressure_bump_witness :
    (team_pressure_scores [] "denver nuggets" "los angeles lakers").2.2.2 = 0 :=
  (C10_team_pressure_bump [] "denver nuggets" "los angeles lakers").2.1 ⟨rfl, rfl⟩

/-- Python `statistics.median`: sort, take the middle element (odd length)
or the mean of the two middle elements (even length). -/
def median (xs : List ℚ) : ℚ :=
  let s := List.insertionSort (· ≤ ·) xs
  if s.length % 2 = 1 then s.getD (s.length / 2) 0
  else (s.getD (s.length / 2 - 1) 0 + s.getD (s.length / 2) 0) / 2

/-- Core of source `trimmed_weighted_mean` (consensus engine), translated
line by line, starting at `n = len(values)` after the entry guards;
weights are received as a list (the scalar-broadcast branch of the source
is for a non-list argument and cannot arise at this type), and
`int(n*trim)` is modelled as a floor, which agrees with Python truncation
for the nonnegative trims the scanner passes. -/
def twm_core (values weights : List ℚ) (trim : ℚ) : Option ℚ :=
  let n := values.length
  if n ≤ 3 then some (median values) else
  let med := median values
  let mad := median (values.map (fun v => |v - med|))
  if mad < 0.001 then
    some (((values.zip weights).map (fun p => p.1 * p.2)).sum / weights.sum)
  else
  let cleaned := (values.zip weights).map
    (fun p => if 2.5 < |0.6745 * (p.1 - med) / mad| then (p.1, p.2 * 0.1) else p)
  let outlier_count := (values.filter (fun v => 2.5 < |0.6745 * (v - med) / mad|)).length
  if (n : ℚ) * 0.4 < outlier_count then
    let pairs := List.insertionSort (fun p q : ℚ × ℚ => p.1 ≤ q.1) (values.zip weights)
    let pairs :=
      if n ≤ 6 then
        if 4 ≤ n then
          let p0 := pairs.getD 0 (0, 0)
          let p1 := pairs.getD 1 (0, 0)
          let pl := pairs.getD (pairs.length - 1) (0, 0)
          let pl1 := pairs.getD (pairs.length - 2) (0, 0)
          (pairs.set 0 (p0.1 * 0.75 + p1.1 * 0.25, p0.2)).set (pairs.length - 1)
            (pl.1 * 0.75 + pl1.1 * 0.25, pl.2)
        else pairs
      else
        let k := (Int.floor ((n : ℚ) * trim)).toNat
        if 0 < n - 2 * k then (pairs.drop k).take (n - 2 * k) else pairs
    let den := (pairs.map Prod.snd).sum
    if den = 0 then none else some ((pairs.map (fun p => p.1 * p.2)).sum / den)
  else
    let den := (cleaned.map Prod.snd).sum
    if den = 0 then none else some ((cleaned.map (fun p => p.1 * p.2)).sum / den)

/-- Source `trimmed_weighted_mean` entry point: empty-input guard and
truncation of both lists to the shorter length, then the core consensus
computation (`twm_core`). -/
def trimmed_weighted_mean (values weights : List ℚ) (trim : ℚ) : Option ℚ :=
  if values = [] then none else
  let m := min values.length weights.length
  let values' := values.take m
  let weights' := weights.take m
  if values' = [] then none else
  twm_core values' weights' trim

theorem twm_eq_core {values weights : List ℚ} (trim : ℚ) (hne : values ≠ [])
    (hlen : weights.length = values.length) :
    trimmed_weighted_mean values weights trim = twm_core values weights trim := by
  simp only [trimmed_weighted_mean, hlen, min_self, List.take_length, if_neg hne]
  rw [show values.length = weights.length from hlen.symm, List.take_length]

/-- The MAD statistic the consensus engine computes for a sample
(`mad = median(|v - median|)`). -/
def consensus_mad (values : List ℚ) : ℚ :=
  median (values.map (fun v => |v - median values|))

/-- How many samples the consensus engine flags as outliers (modified
Z-score beyond 2.5). -/
def consensus_outlier_count (values : List ℚ) : ℕ :=
  (values.filter
    (fun v => 2.5 < |0.6745 * (v - median values) / consensus_mad values|)).length

theorem getD_mem_of_lt {α : Type*} {l : List α} {n : ℕ} {d : α}
    (h : n < l.length) : l.getD n d ∈ l := by
  rw [List.getD_eq_getElem l d h]
  exact List.getElem_mem h

theorem median_mem_bounds {xs : List ℚ} {lo hi : ℚ} (hne : xs ≠ [])
    (hb : ∀ v ∈ xs, lo ≤ v ∧ v ≤ hi) : lo ≤ median xs ∧ median xs ≤ hi := by
  have hperm := List.perm_insertionSort (fun a b : ℚ => a ≤ b) xs
  set s := List.insertionSort (· ≤ ·) xs with hs
  have hmem : ∀ v ∈ s, lo ≤ v ∧ v ≤ hi := fun v hv => hb v (hperm.mem_iff.mp hv)
  have hlen : 0 < s.length := by
    rw [hperm.length_eq]
    exact List.length_pos.mpr hne
  simp only [median]
  rw [← hs]
  split_ifs with hpar
  · have hidx : s.length / 2 < s.length := Nat.div_lt_self hlen (by norm_num)
    exact hmem (s.getD (s.length / 2) 0) (getD_mem_of_lt hidx)
  · have hidx2 : s.length / 2 < s.length := Nat.div_lt_self hlen (by norm_num)
    have hidx1 : s.length / 2 - 1 < s.length := lt_of_le_of_lt (Nat.sub_le _ _) hidx2
    have h1 := hmem (s.getD (s.length / 2 - 1) 0) (getD_mem_of_lt hidx1)
    have h2 := hmem (s.getD (s.length / 2) 0) (getD_mem_of_lt hidx2)
    constructor
    · linarith [h1.1, h2.1]
    · linarith [h1.2, h2.2]

theorem pairs_den_pos {pairs : List (ℚ × ℚ)} (hne : pairs ≠ [])
    (hw : ∀ p ∈ pairs, 0 < p.2) : 0 < (pairs.map Prod.snd).sum := by
  apply List.sum_pos
  · intro w hwmem
    rcases List.mem_map.mp hwmem with ⟨p, hp, rfl⟩
    exact hw p hp
  · simpa using hne

theorem weighted_pairs_mean_bounds {pairs : List (ℚ × ℚ)} {lo hi : ℚ}
    (hne : pairs ≠ []) (hw : ∀ p ∈ pairs, 0 < p.2)
    (hb : ∀ p ∈ pairs, lo ≤ p.1 ∧ p.1 ≤ hi) :
    0 < (pairs.map Prod.snd).sum ∧
    lo ≤ (pairs.map (fun p => p.1 * p.2)).sum / (pairs.map Prod.snd).sum ∧
    (pairs.map (fun p => p.1 * p.2)).sum / (pairs.map Prod.snd).sum ≤ hi := by
  have hden : 0 < (pairs.map Prod.snd).sum := pairs_den_pos hne hw
  refine ⟨hden, ?_, ?_⟩
  · rw [le_div_iff₀ hden]
    have h1 : (pairs.map (fun p => lo * p.2)).sum ≤
        (pairs.map (fun p => p.1 * p.2)).sum :=
      List.sum_le_sum (fun p hp =>
        mul_le_mul_of_nonneg_right (hb p hp).1 (le_of_lt (hw p hp)))
    calc lo * (pairs.map Prod.snd).sum
        = (pairs.map (fun p => lo * p.2)).sum := (List.sum_map_mul_left _ _ _).symm
      _ ≤ _ := h1
  · rw [div_le_iff₀ hden]
    have h1 : (pairs.map (fun p => p.1 * p.2)).sum ≤
        (pairs.map (fun p => hi * p.2)).sum :=
      List.sum_le_sum (fun p hp =>
        mul_le_mul_of_nonneg_right (hb p hp).2 (le_of_lt (hw p hp)))
    calc (pairs.map (fun p => p.1 * p.2)).sum
        ≤ (pairs.map (fun p => hi * p.2)).sum := h1
      _ = hi * (pairs.map Prod.snd).sum := List.sum_map_mul_left _ _ _

theorem zip_ne_nil {values weights : List ℚ} (hne : values ≠ [])
    (hlen : weights.length = values.length) : values.zip weights ≠ [] := by
  have hl : (values.zip weights).length = values.length := by
    rw [List.length_zip, hlen, min_self]
  intro h
  rw [h] at hl
  exact hne (List.length_eq_zero.mp hl.symm)

theorem zip_snd_pos {values weights : List ℚ}
    (hw : ∀ w ∈ weights, 0 < w) : ∀ p ∈ values.zip weights, 0 < p.2 := by
  rintro ⟨a, b⟩ hp
  exact hw b (List.of_mem_zip hp).2

theorem zip_fst_bounds {values weights : List ℚ} {lo hi : ℚ}
    (hb : ∀ v ∈ values, lo ≤ v ∧ v ≤ hi) :
    ∀ p ∈ values.zip weights, lo ≤ p.1 ∧ p.1 ≤ hi := by
  rintro ⟨a, b⟩ hp
  exact hb a (List.of_mem_zip hp).1

/-- C1: with positive weights, the consensus of at most three samples is
the plain median (hence inside the sample range); with more than three
samples, both soft paths (negligible MAD, or outlier fraction at most
40%) return a weighted mean lying inside the sample range; and the
three-book scenario `0.52 / 0.54 / 0.90` with unit weights and trim `0.15`
returns `0.54`, within `0.01` of `0.53` and below `0.65`. -/
theorem C1_consensus_range (values weights : List ℚ) (trim lo hi : ℚ)
    (hne : values ≠ []) (hlen : weights.length = values.length)
    (hw : ∀ w ∈ weights, 0 < w)
    (hb : ∀ v ∈ values, lo ≤ v ∧ v ≤ hi) :
    (values.length ≤ 3 →
      trimmed_weighted_mean values weights trim = some (median values) ∧
      lo ≤ median values ∧ median values ≤ hi) ∧
    (3 < values.length →
      (consensus_mad values < 0.001 ∨
        (consensus_outlier_count values : ℚ) ≤ (values.length : ℚ) * 0.4) →
      ∃ r, trimmed_weighted_mean values weights trim = some r ∧
        lo ≤ r ∧ r ≤ hi) ∧
    (trimmed_weighted_mean [0.52, 0.54, 0.90] [1, 1, 1] 0.15 = some 0.54 ∧
      |(0.54 : ℚ) - 0.53| ≤ 0.01 ∧ (0.54 : ℚ) < 0.65) := by
  rw [twm_eq_core trim hne hlen]
  refine ⟨?_, ?_, ?_⟩
  · intro h3
    constructor
    · simp only [twm_core]
      rw [if_pos h3]
    · exact median_mem_bounds hne hb
  · intro h3 hsoft
    simp only [twm_core]
    rw [if_neg (by omega : ¬ values.length ≤ 3)]
    rcases hsoft with hmad | hcount
    · have hmad' : median (values.map (fun v => |v - median values|)) < 0.001 := hmad
      rw [if_pos hmad']
      have hzne := zip_ne_nil hne hlen
      have hbounds := weighted_pairs_mean_bounds hzne (zip_snd_pos hw)
        (zip_fst_bounds hb)
      have hsnd : (values.zip weights).map Prod.snd = weights :=
        List.map_snd_zip values weights (le_of_eq hlen)
      refine ⟨_, rfl, ?_, ?_⟩
      · have := hbounds.2.1
        rwa [hsnd] at this
      · have := hbounds.2.2
        rwa [hsnd] at this
    · have hmadcases := lt_or_le (median (values.map (fun v => |v - median values|))) 0.001
      rcases hmadcases with hmad | hmad
      · rw [if_pos hmad]
        have hzne := zip_ne_nil hne hlen
        have hbounds := weighted_pairs_mean_bounds hzne (zip_snd_pos hw)
          (zip_fst_bounds hb)
        have hsnd : (values.zip weights).map Prod.snd = weights :=
          List.map_snd_zip values weights (le_of_eq hlen)
        refine ⟨_, rfl, ?_, ?_⟩
        · have := hbounds.2.1
          rwa [hsnd] at this
        · have := hbounds.2.2
          rwa [hsnd] at this
      · rw [if_neg (not_lt.mpr hmad)]
        have hcount' : ¬ ((values.length : ℚ) * 0.4 <
            ((values.filter (fun v =>
              2.5 < |0.6745 * (v - median values) /
                (median (values.map (fun w => |w - median values|)))|)).length : ℚ)) :=
          not_lt.mpr hcount
        rw [if_neg hcount']
        set cleaned := (values.zip weights).map
          (fun p => if 2.5 < |0.6745 * (p.1 - median values) /
              (median (values.map (fun v => |v - median values|)))|
            then (p.1, p.2 * 0.1) else p) with hcl
        have hclne : cleaned ≠ [] := by
          rw [hcl]
          intro h
          exact zip_ne_nil hne hlen (List.map_eq_nil.mp h)
        have hclw : ∀ p ∈ cleaned, 0 < p.2 := by
          intro p hp
          rw [hcl] at hp
          rcases List.mem_map.mp hp with ⟨q, hq, rfl⟩
          have hqw := zip_snd_pos hw q hq
          split_ifs
          · simpa using by positivity
          · exact hqw
        have hclb : ∀ p ∈ cleaned, lo ≤ p.1 ∧ p.1 ≤ hi := by
          intro p hp
          rw [hcl] at hp
          rcases List.mem_map.mp hp with ⟨q, hq, rfl⟩
          have hqb := zip_fst_bounds hb q hq
          split_ifs
          · simpa using hqb
          · exact hqb
        have hbounds := weighted_pairs_mean_bounds hclne hclw hclb
        rw [if_neg (ne_of_gt hbounds.1)]
        exact ⟨_, rfl, hbounds.2.1, hbounds.2.2⟩
  · refine ⟨?_, by norm_num [abs_of_nonneg], by norm_num⟩
    have hne' : ([0.52, 0.54, 0.90] : List ℚ) ≠ [] := by simp
    have hlen' : ([1, 1, 1] : List ℚ).length =
        ([0.52, 0.54, 0.90] : List ℚ).length := by norm_num
    rw [twm_eq_core 0.15 hne' hlen']
    norm_num [twm_core, median, List.insertionSort, List.orderedInsert, List.getD]

/-- C1 witness: the median branch and its range bound instantiated on the
three samples `1/2, 11/20, 3/5` with unit weights. -/
theorem C1_consensus_range_witness :
    trimmed_weighted_mean [1/2, 11/20, 3/5] [1, 1, 1] 0.15 =
        some (median [1/2, 11/20, 3/5]) ∧
      1/2 ≤ median [1/2, 11/20, 3/5] ∧ median [1/2, 11/20, 3/5] ≤ 3/5 :=
  (C1_consensus_range [1/2, 11/20, 3/5] [1, 1, 1] 0.15 (1/2) (3/5)
    (by simp) (by norm_num) (by norm_num) (by norm_num)).1 (by norm_num)

/-- Weighted mean of value/weight pairs; the spec's "return the weighted
mean of the (possibly down-weighted or trimmed) set". -/
def spec_weighted_mean (pairs : List (ℚ × ℚ)) : ℚ :=
  (pairs.map (fun p => p.1 * p.2)).sum / (pairs.map Prod.snd).sum

/-- Spec algorithm step 3 (C2): every sample whose modified Z-score
`0.6745·(x−median)/MAD` exceeds 2.5 in absolute value has its weight
multiplied by 0.1; the rest keep their weight. -/
def spec_downweight (values weights : List ℚ) : List (ℚ × ℚ) :=
  (values.zip weights).map (fun p =>
    if 2.5 < |0.6745 * (p.1 - median values) / consensus_mad values|
    then (p.1, p.2 * 0.1) else p)

/-- Spec algorithm step 4 (C2), samples of size at most 6: after sorting
by value, pull the two extreme values 25% toward their neighbors
(winsorization), keeping every weight. -/
def spec_winsorize (pairs : List (ℚ × ℚ)) : List (ℚ × ℚ) :=
  let p0 := pairs.getD 0 (0, 0)
  let p1 := pairs.getD 1 (0, 0)
  let pl := pairs.getD (pairs.length - 1) (0, 0)
  let pl1 := pairs.getD (pairs.length - 2) (0, 0)
  (pairs.set 0 (p0.1 * 0.75 + p1.1 * 0.25, p0.2)).set (pairs.length - 1)
    (pl.1 * 0.75 + pl1.1 * 0.25, pl.2)

/-- Spec algorithm step 4 (C2), larger samples: drop a `trim` fraction
from each tail of the sorted sample. -/
def spec_trim_tails (pairs : List (ℚ × ℚ)) (trim : ℚ) : List (ℚ × ℚ) :=
  let k := (Int.floor ((pairs.length : ℚ) * trim)).toNat
  (pairs.drop k).take (pairs.length - 2 * k)

/-- The consensus algorithm for more than three samples exactly as the
spec describes it (C2): plain weighted mean when the MAD is numerically
negligible; hard winsorization/trimming when flagged outliers exceed 40%
of the sample; soft down-weighting otherwise. -/
def spec_consensus_over3 (values weights : List ℚ) (trim : ℚ) : ℚ :=
  if consensus_mad values < 0.001 then spec_weighted_mean (values.zip weights)
  else if (values.length : ℚ) * 0.4 < (consensus_outlier_count values : ℚ) then
    let sorted := List.insertionSort (fun p q : ℚ × ℚ => p.1 ≤ q.1) (values.zip weights)
    if values.length ≤ 6 then spec_weighted_mean (spec_winsorize sorted)
    else spec_weighted_mean (spec_trim_tails sorted trim)
  else spec_weighted_mean (spec_downweight values weights)

theorem spec_winsorize_snd_pos {ps : List (ℚ × ℚ)} (hlen : 0 < ps.length)
    (hw : ∀ p ∈ ps, 0 < p.2) : ∀ p ∈ spec_winsorize ps, 0 < p.2 := by
  intro p hp
  simp only [spec_winsorize] at hp
  rcases List.mem_or_eq_of_mem_set hp with hp1 | rfl
  · rcases List.mem_or_eq_of_mem_set hp1 with hp2 | rfl
    · exact hw p hp2
    · simpa using hw (ps.getD 0 (0, 0)) (getD_mem_of_lt hlen)
  · simpa using hw (ps.getD (ps.length - 1) (0, 0))
      (getD_mem_of_lt (Nat.sub_lt hlen one_pos))

/-- C2: for more than three samples with positive weights and a
nonnegative trim below one half, the source consensus function computes
exactly the spec's algorithm. -/
theorem C2_consensus_algorithm (values weights : List ℚ) (trim : ℚ)
    (hlen : weights.length = values.length) (h3 : 3 < values.length)
    (hw : ∀ w ∈ weights, 0 < w) (ht0 : 0 ≤ trim) (ht1 : trim < 1/2) :
    trimmed_weighted_mean values weights trim =
      some (spec_consensus_over3 values weights trim) := by
  have hne : values ≠ [] := by
    intro h
    rw [h] at h3
    simp at h3
  have hzne : values.zip weights ≠ [] := zip_ne_nil hne hlen
  have hzlen : (values.zip weights).length = values.length := by
    rw [List.length_zip, hlen, min_self]
  rw [twm_eq_core trim hne hlen]
  simp only [twm_core, spec_consensus_over3, consensus_mad, consensus_outlier_count]
  rw [if_neg (by omega : ¬ values.length ≤ 3)]
  by_cases hmad : median (values.map (fun v => |v - median values|)) < 0.001
  · rw [if_pos hmad, if_pos hmad]
    have hsnd : (values.zip weights).map Prod.snd = weights :=
      List.map_snd_zip values weights (le_of_eq hlen)
    simp only [spec_weighted_mean, hsnd]
  · rw [if_neg hmad, if_neg hmad]
    by_cases hhard : (values.length : ℚ) * 0.4 <
        ((values.filter (fun v =>
          2.5 < |0.6745 * (v - median values) /
            (median (values.map (fun w => |w - median values|)))|)).length : ℚ)
    · rw [if_pos hhard, if_pos hhard]
      set sorted := List.insertionSort (fun p q : ℚ × ℚ => p.1 ≤ q.1)
        (values.zip weights) with hsorted
      have hperm : sorted.Perm (values.zip weights) :=
        List.perm_insertionSort _ _
      have hslen : sorted.length = values.length := by
        rw [hperm.length_eq, hzlen]
      have hsw : ∀ p ∈ sorted, 0 < p.2 := fun p hp =>
        zip_snd_pos hw p (hperm.mem_iff.mp hp)
      by_cases hn6 : values.length ≤ 6
      · rw [if_pos hn6, if_pos hn6, if_pos (by omega : 4 ≤ values.length)]
        have hwin := spec_winsorize_snd_pos (by omega : 0 < sorted.length) hsw
        have hwne : spec_winsorize sorted ≠ [] := by
          have hL : (spec_winsorize sorted).length = sorted.length := by
            simp [spec_winsorize]
          intro h
          rw [h] at hL
          simp at hL
          omega
        have hden := pairs_den_pos hwne hwin
        simp only [spec_winsorize] at hden
        simp only [spec_weighted_mean, spec_winsorize]
        rw [if_neg (ne_of_gt hden)]
      · rw [if_neg hn6, if_neg hn6]
        set k := (Int.floor ((values.length : ℚ) * trim)).toNat with hk
        have hk2 : 2 * k < values.length := by
          have hfl : (Int.floor ((values.length : ℚ) * trim) : ℚ) ≤
              (values.length : ℚ) * trim := Int.floor_le _
          have hlt : ((values.length : ℚ) * trim) < (values.length : ℚ) / 2 := by
            have hn0 : (0 : ℚ) < (values.length : ℚ) := by
              exact_mod_cast (by omega : 0 < values.length)
            nlinarith
          have hfl0 : (0 : ℤ) ≤ Int.floor ((values.length : ℚ) * trim) :=
            Int.floor_nonneg.mpr (by positivity)
          have : (k : ℚ) < (values.length : ℚ) / 2 := by
            rw [hk]
            calc ((Int.floor ((values.length : ℚ) * trim)).toNat : ℚ)
                = ((Int.floor ((values.length : ℚ) * trim) : ℤ) : ℚ) := by
                  exact_mod_cast congrArg Int.cast (Int.toNat_of_nonneg hfl0)
              _ ≤ (values.length : ℚ) * trim := hfl
              _ < _ := hlt
          have : (2 * k : ℚ) < (values.length : ℚ) := by linarith
          exact_mod_cast this
        rw [if_pos (by omega : 0 < values.length - 2 * k)]
        have hcut : ((sorted.drop k).take (values.length - 2 * k)) =
            spec_trim_tails sorted trim := by
          simp only [spec_trim_tails, hslen, ← hk]
        rw [hcut]
        have htne : spec_trim_tails sorted trim ≠ [] := by
          have hl : (spec_trim_tails sorted trim).length = values.length - 2 * k := by
            simp only [spec_trim_tails, hslen, ← hk]
            rw [List.length_take, List.length_drop, hslen]
            omega
          intro h
          rw [h] at hl
          simp at hl
          omega
        have htw : ∀ p ∈ spec_trim_tails sorted trim, 0 < p.2 := by
          intro p hp
          simp only [spec_trim_tails, hslen, ← hk] at hp
          exact hsw p (List.mem_of_mem_drop (List.mem_of_mem_take hp))
        have hden := pairs_den_pos htne htw
        rw [if_neg (ne_of_gt hden)]
        rfl
    · rw [if_neg hhard, if_neg hhard]
      simp only [spec_weighted_mean, spec_downweight, consensus_mad]
      set cleaned := (values.zip weights).map
        (fun p => if 2.5 < |0.6745 * (p.1 - median values) /
            (median (values.map (fun v => |v - median values|)))|
          then (p.1, p.2 * 0.1) else p) with hcl
      have hclne : cleaned ≠ [] := by
        rw [hcl]
        intro h
        exact hzne (List.map_eq_nil.mp h)
      have hclw : ∀ p ∈ cleaned, 0 < p.2 := by
        intro p hp
        rw [hcl] at hp
        rcases List.mem_map.mp hp with ⟨q, hq, rfl⟩
        have hqw := zip_snd_pos hw q hq
        split_ifs
        · simpa using by positivity
        · exact hqw
      have hden := pairs_den_pos hclne hclw
      rw [if_neg (ne_of_gt hden)]

/-- C2 witness: the spec algorithm and the source function agree on the
four-sample input `1/2, 13/25, 27/50, 9/10` with unit weights and trim
`0.15`. -/
theorem C2_consensus_algorithm_witness :
    trimmed_weighted_mean [1/2, 13/25, 27/50, 9/10] [1, 1, 1, 1] (3/20) =
      some (spec_consensus_over3 [1/2, 13/25, 27/50, 9/10] [1, 1, 1, 1] (3/20)) :=
  C2_consensus_algorithm [1/2, 13/25, 27/50, 9/10] [1, 1, 1, 1] (3/20)
    (by norm_num) (by norm_num) (by norm_num) (by norm_num) (by norm_num)

/-- The badge bucketing expression shared by both scorers in the source:
`"HIGH" if conf >= hi else ("MED" if conf >= med else ("LOW" if conf >= lo
else "PASS"))`. -/
def badge_of (conf hi med lo : ℤ) : String :=
  if conf ≥ hi then "HIGH" else if conf ≥ med then "MED"
  else if conf ≥ lo then "LOW" else "PASS"

/-- Source `confidence_score_from_prob` with `BADGE_THRESHOLDS =
{HIGH: 70, MED: 60, LOW: 55}`; the source clamps the adjusted probability
twice (a duplicated line), kept here verbatim. -/
def confidence_score_from_prob (true_prob inj_adj min_adj steam_adj : ℚ) :
    ℤ × String :=
  let adjusted_prob := clamp (true_prob + (inj_adj + min_adj + steam_adj) * 0.01) 0 1
  let adjusted_prob := clamp adjusted_prob 0 1
  let conf := pyRound (adjusted_prob * 100)
  (conf, badge_of conf 70 60 55)

/-- Source `plus_odds_confidence_score` (underdog scoring path), with its
own lower badge thresholds 55/48/42. -/
def plus_odds_confidence_score (true_prob : ℚ) (fd_odds gap_cents books_used : ℤ)
    (inj_adj min_adj : ℚ) : ℤ × String :=
  let base_conf := true_prob * 100
  let gap_bonus : ℚ := min 15 ((gap_cents : ℚ) / 2)
  let books_bonus : ℚ := min 10 (((books_used : ℚ) - 3) * 2)
  let odds_penalty : ℚ := if 250 < fd_odds then ((fd_odds : ℚ) - 250) / 20 else 0
  let inj_scaled := inj_adj * 0.5
  let min_scaled := min_adj * 0.7
  let adjusted_conf := base_conf + gap_bonus + books_bonus - odds_penalty +
    inj_scaled + min_scaled
  let adjusted_conf := clamp adjusted_conf 0 100
  let conf := pyRound adjusted_conf
  (conf, badge_of conf 55 48 42)

/-- Badge tiers ordered `PASS < LOW < MED < HIGH` (spec §4.6). -/
def badge_tier (b : String) : ℕ :=
  if b = "HIGH" then 3 else if b = "MED" then 2 else if b = "LOW" then 1 else 0

theorem clamp_mem {x lo hi : ℚ} (h : lo ≤ hi) :
    lo ≤ clamp x lo hi ∧ clamp x lo hi ≤ hi :=
  ⟨le_max_left _ _, max_le h (min_le_left _ _)⟩

theorem clamp_eq_self {x lo hi : ℚ} (h1 : lo ≤ x) (h2 : x ≤ hi) :
    clamp x lo hi = x := by
  rw [clamp, min_eq_right h2, max_eq_right h1]

theorem clamp_mono {x y lo hi : ℚ} (h : x ≤ y) :
    clamp x lo hi ≤ clamp y lo hi :=
  max_le_max le_rfl (min_le_min le_rfl h)

theorem pyRound_zero : pyRound (0 : ℚ) = 0 := by
  simpa using pyRound_intCast 0

theorem pyRound_le_intCast {x : ℚ} {n : ℤ} (h : x ≤ (n : ℚ)) : pyRound x ≤ n := by
  have := pyRound_le_of_le h
  rwa [pyRound_intCast] at this

theorem intCast_le_pyRound {x : ℚ} {n : ℤ} (h : (n : ℚ) ≤ x) : n ≤ pyRound x := by
  have := pyRound_le_of_le h
  rwa [pyRound_intCast] at this

theorem tier_badge_of (c hi med lo : ℤ) :
    badge_tier (badge_of c hi med lo) =
      if c ≥ hi then 3 else if c ≥ med then 2 else if c ≥ lo then 1 else 0 := by
  unfold badge_of
  split_ifs <;> decide

theorem badge_of_mono {c₁ c₂ hi med lo : ℤ} (hml : lo ≤ med) (hmh : med ≤ hi)
    (h : c₁ ≤ c₂) : badge_tier (badge_of c₁ hi med lo) ≤
      badge_tier (badge_of c₂ hi med lo) := by
  rw [tier_badge_of, tier_badge_of]
  split_ifs <;> omega

/-- C4 counterexample: badge tiers are not monotone in the returned
confidence across the two scoring paths.  `confidence_score_from_prob`
at true probability `0.56` returns confidence `56` with badge `LOW`,
while `plus_odds_confidence_score` at probability `0.5` (price `+200`,
no gap, 3 books) returns the lower confidence `50` with the higher badge
`MED`. -/
theorem C4_badge_cross_scorer_counterexample :
    (confidence_score_from_prob 0.56 0 0 0).1 = 56 ∧
    (plus_odds_confidence_score 0.5 200 0 3 0 0).1 = 50 ∧
    badge_tier (confidence_score_from_prob 0.56 0 0 0).2 <
      badge_tier (plus_odds_confidence_score 0.5 200 0 3 0 0).2 := by
  refine ⟨?_, ?_, ?_⟩ <;>
    norm_num [confidence_score_from_prob, plus_odds_confidence_score, clamp,
      pyRound, badge_of, badge_tier] <;> decide

/-- C4 (amended): the confidence returned by
`confidence_score_from_prob` equals
`round(clamp(true_prob + (inj+min+steam)·0.01, 0, 1)·100)` and is an
integer in `[0,100]`; the confidence returned by
`plus_odds_confidence_score` is an integer in `[0,100]`; and within each
scoring function a higher returned confidence never gets a lower badge
tier.  (Monotonicity across the two functions fails: see the
counterexample.) -/
theorem C4_confidence_score_properties :
    (∀ p i m s : ℚ,
      (confidence_score_from_prob p i m s).1 =
        pyRound (clamp (p + (i + m + s) * 0.01) 0 1 * 100) ∧
      0 ≤ (confidence_score_from_prob p i m s).1 ∧
      (confidence_score_from_prob p i m s).1 ≤ 100) ∧
    (∀ (p : ℚ) (fd gap bk : ℤ) (i m : ℚ),
      0 ≤ (plus_odds_confidence_score p fd gap bk i m).1 ∧
      (plus_odds_confidence_score p fd gap bk i m).1 ≤ 100) ∧
    (∀ p i m s p' i' m' s' : ℚ,
      (confidence_score_from_prob p i m s).1 ≤
          (confidence_score_from_prob p' i' m' s').1 →
        badge_tier (confidence_score_from_prob p i m s).2 ≤
          badge_tier (confidence_score_from_prob p' i' m' s').2) ∧
    (∀ (p : ℚ) (fd gap bk : ℤ) (i m : ℚ) (p' : ℚ) (fd' gap' bk' : ℤ) (i' m' : ℚ),
      (plus_odds_confidence_score p fd gap bk i m).1 ≤
          (plus_odds_confidence_score p' fd' gap' bk' i' m').1 →
        badge_tier (plus_odds_confidence_score p fd gap bk i m).2 ≤
          badge_tier (plus_odds_confidence_score p' fd' gap' bk' i' m').2) := by
  have hcs : ∀ p i m s : ℚ,
      (confidence_score_from_prob p i m s).1 =
        pyRound (clamp (p + (i + m + s) * 0.01) 0 1 * 100) := by
    intro p i m s
    have hc := @clamp_mem (p + (i + m + s) * 0.01) 0 1 (by norm_num)
    simp only [confidence_score_from_prob, clamp_eq_self hc.1 hc.2]
  refine ⟨fun p i m s => ⟨hcs p i m s, ?_, ?_⟩, fun p fd gap bk i m => ⟨?_, ?_⟩,
    fun p i m s p' i' m' s' h => badge_of_mono (by norm_num) (by norm_num) h,
    fun p fd gap bk i m p' fd' gap' bk' i' m' h =>
      badge_of_mono (by norm_num) (by norm_num) h⟩
  · rw [hcs p i m s]
    have hc := @clamp_mem (p + (i + m + s) * 0.01) 0 1 (by norm_num)
    exact intCast_le_pyRound (by push_cast; nlinarith [hc.1])
  · rw [hcs p i m s]
    have hc := @clamp_mem (p + (i + m + s) * 0.01) 0 1 (by norm_num)
    exact pyRound_le_intCast (by push_cast; nlinarith [hc.2])
  · have hc := @clamp_mem (p * 100 + min 15 ((gap : ℚ) / 2) +
      min 10 (((bk : ℚ) - 3) * 2) -
      (if 250 < fd then ((fd : ℚ) - 250) / 20 else 0) + i * 0.5 + m * 0.7)
      0 100 (by norm_num)
    exact intCast_le_pyRound (by push_cast; linarith [hc.1])
  · have hc := @clamp_mem (p * 100 + min 15 ((gap : ℚ) / 2) +
      min 10 (((bk : ℚ) - 3) * 2) -
      (if 250 < fd then ((fd : ℚ) - 250) / 20 else 0) + i * 0.5 + m * 0.7)
      0 100 (by norm_num)
    exact pyRound_le_intCast (by push_cast; linarith [hc.2])

/-- C4 witness: the per-scorer properties instantiated at confidence 50
versus 60 inside `confidence_score_from_prob`. -/
theorem C4_confidence_score_properties_witness :
    0 ≤ (confidence_score_from_prob (1/2) 0 0 0).1 ∧
    badge_tier (confidence_score_from_prob (1/2) 0 0 0).2 ≤
      badge_tier (confidence_score_from_prob (3/5) 0 0 0).2 :=
  ⟨(C4_confidence_score_properties.1 (1/2) 0 0 0).2.1,
    C4_confidence_score_properties.2.2.1 (1/2) 0 0 0 (3/5) 0 0 0
      (by norm_num [confidence_score_from_prob, clamp, pyRound])⟩

/-- Source constant `CURRENT_KELLY_MULT = 0.5` (fractional Kelly). -/
def CURRENT_KELLY_MULT : ℚ := 0.5

/-- Source constant `KELLY_CAP_PCT = 2.5` (maximum stake percentage). -/
def KELLY_CAP_PCT : ℚ := 2.5

/-- The correlation-adjusted Kelly stake fraction computed in the
`scan_props` ranking loop, before the final 2-decimal rounding; the
`math.isfinite` guard of the source is the `k_frac < 0` test alone, a
rational being always finite. -/
def scan_kelly_frac (true_prob_pct : ℚ) (fd_odds corr_pts : ℤ) : ℚ :=
  let true_prob := true_prob_pct / 100
  let fd_dec := american_to_decimal fd_odds
  let k_frac := kelly_fraction true_prob fd_dec * CURRENT_KELLY_MULT
  let k_frac := if k_frac < 0 then 0 else k_frac
  let haircut := clamp (1 - (corr_pts : ℚ) / 100) 0.5 1.0
  let k_frac := k_frac * haircut
  min k_frac (KELLY_CAP_PCT / 100)

/-- The `Kelly %` value written into the ranked row:
`round(k_frac * 100.0, 2)`. -/
def scan_kelly_pct (true_prob_pct : ℚ) (fd_odds corr_pts : ℤ) : ℚ :=
  round2 (scan_kelly_frac true_prob_pct fd_odds corr_pts * 100)

theorem kelly_fraction_nonneg (p dec : ℚ) : 0 ≤ kelly_fraction p dec := by
  simp only [kelly_fraction]
  split_ifs
  · exact le_max_left _ _
  · exact le_rfl

theorem scan_kelly_frac_eq (tp : ℚ) (fd pts : ℤ) :
    scan_kelly_frac tp fd pts =
      min (kelly_fraction (tp / 100) (american_to_decimal fd) *
        CURRENT_KELLY_MULT * clamp (1 - (pts : ℚ) / 100) 0.5 1.0)
        (KELLY_CAP_PCT / 100) := by
  have hk : 0 ≤ kelly_fraction (tp / 100) (american_to_decimal fd) *
      CURRENT_KELLY_MULT := by
    have := kelly_fraction_nonneg (tp / 100) (american_to_decimal fd)
    unfold CURRENT_KELLY_MULT
    nlinarith
  simp only [scan_kelly_frac, if_neg (not_lt.mpr hk)]

theorem haircut_bounds (pts : ℤ) :
    (1/2 : ℚ) ≤ clamp (1 - (pts : ℚ) / 100) 0.5 1.0 ∧
      clamp (1 - (pts : ℚ) / 100) 0.5 1.0 ≤ 1 := by
  have := @clamp_mem (1 - (pts : ℚ) / 100) 0.5 1.0 (by norm_num)
  constructor
  · have h05 : (0.5 : ℚ) = 1/2 := by norm_num
    linarith [this.1]
  · have h10 : (1.0 : ℚ) = 1 := by norm_num
    linarith [this.2]

/-- C5: the correlation-adjusted `Kelly %` written during ranking is
always in `[0, KELLY_CAP_PCT] = [0, 2.5]`, equals the fractional Kelly
stake times the haircut `clamp(1 − pts/100, 0.5, 1.0)` (capped and
rounded to two decimals), is non-increasing in the correlation penalty
points, and the capped haircut stake never falls below 50% of the capped
uncorrelated stake. -/
theorem C5_scan_kelly (tp : ℚ) (fd : ℤ) (pts pts' : ℤ) (hpp : pts ≤ pts') :
    (0 ≤ scan_kelly_pct tp fd pts ∧ scan_kelly_pct tp fd pts ≤ KELLY_CAP_PCT) ∧
    scan_kelly_pct tp fd pts =
      round2 (min (kelly_fraction (tp / 100) (american_to_decimal fd) *
        CURRENT_KELLY_MULT * clamp (1 - (pts : ℚ) / 100) 0.5 1.0)
        (KELLY_CAP_PCT / 100) * 100) ∧
    scan_kelly_pct tp fd pts' ≤ scan_kelly_pct tp fd pts ∧
    1/2 * scan_kelly_frac tp fd 0 ≤ scan_kelly_frac tp fd pts := by
  have hkb : 0 ≤ kelly_fraction (tp / 100) (american_to_decimal fd) *
      CURRENT_KELLY_MULT := by
    have := kelly_fraction_nonneg (tp / 100) (american_to_decimal fd)
    unfold CURRENT_KELLY_MULT
    nlinarith
  set kb := kelly_fraction (tp / 100) (american_to_decimal fd) *
    CURRENT_KELLY_MULT with hkbdef
  have hfrac : ∀ q : ℤ, scan_kelly_frac tp fd q =
      min (kb * clamp (1 - (q : ℚ) / 100) 0.5 1.0) (KELLY_CAP_PCT / 100) :=
    fun q => scan_kelly_frac_eq tp fd q
  refine ⟨⟨?_, ?_⟩, ?_, ?_, ?_⟩
  · apply round2_nonneg
    rw [hfrac]
    have hh := haircut_bounds pts
    have : (0 : ℚ) ≤ kb * clamp (1 - (pts : ℚ) / 100) 0.5 1.0 := by nlinarith
    have hcap : (0 : ℚ) ≤ KELLY_CAP_PCT / 100 := by unfold KELLY_CAP_PCT; norm_num
    nlinarith [le_min this hcap]
  · have hle : scan_kelly_frac tp fd pts * 100 ≤ (5/2 : ℚ) := by
      rw [hfrac]
      have : min (kb * clamp (1 - (pts : ℚ) / 100) 0.5 1.0) (KELLY_CAP_PCT / 100) ≤
          KELLY_CAP_PCT / 100 := min_le_right _ _
      unfold KELLY_CAP_PCT at this ⊢
      nlinarith
    have h25 : round2 (5/2 : ℚ) = 5/2 := by norm_num [round2, pyRound]
    have hr := round2_mono hle
    rw [h25] at hr
    have hcap : KELLY_CAP_PCT = 5/2 := by unfold KELLY_CAP_PCT; norm_num
    show round2 (scan_kelly_frac tp fd pts * 100) ≤ KELLY_CAP_PCT
    rw [hcap]
    exact hr
  · show scan_kelly_pct tp fd pts = _
    unfold scan_kelly_pct
    rw [hfrac]
  · apply round2_mono
    have hmono : scan_kelly_frac tp fd pts' ≤ scan_kelly_frac tp fd pts := by
      rw [hfrac, hfrac]
      apply min_le_min _ le_rfl
      have hcl : clamp (1 - (pts' : ℚ) / 100) 0.5 1.0 ≤
          clamp (1 - (pts : ℚ) / 100) 0.5 1.0 := by
        apply clamp_mono
        have : ((pts : ℚ)) ≤ (pts' : ℚ) := by exact_mod_cast hpp
        linarith
      nlinarith [haircut_bounds pts, haircut_bounds pts']
    nlinarith [hmono]
  · rw [hfrac, hfrac]
    have hh := haircut_bounds pts
    have hh0 : clamp (1 - ((0 : ℤ) : ℚ) / 100) 0.5 1.0 = 1 := by
      norm_num [clamp]
    rw [hh0, mul_one]
    have hcap : (0 : ℚ) < KELLY_CAP_PCT / 100 := by unfold KELLY_CAP_PCT; norm_num
    rcases le_total kb (KELLY_CAP_PCT / 100) with hc | hc
    · rw [min_eq_left hc]
      have : 1/2 * kb ≤ kb * clamp (1 - (pts : ℚ) / 100) 0.5 1.0 := by nlinarith
      exact le_min this (by nlinarith)
    · rw [min_eq_right hc]
      have h1 : 1/2 * (KELLY_CAP_PCT / 100) ≤
          kb * clamp (1 - (pts : ℚ) / 100) 0.5 1.0 := by nlinarith
      exact le_min h1 (by nlinarith)

/-- C5 witness: a 60% candidate at price −150 with penalty points 0 and
20. -/
theorem C5_scan_kelly_witness :
    (0 ≤ scan_kelly_pct 60 (-150) 0 ∧ scan_kelly_pct 60 (-150) 0 ≤ KELLY_CAP_PCT) ∧
    scan_kelly_pct 60 (-150) 0 =
      round2 (min (kelly_fraction (60 / 100) (american_to_decimal (-150)) *
        CURRENT_KELLY_MULT * clamp (1 - ((0 : ℤ) : ℚ) / 100) 0.5 1.0)
        (KELLY_CAP_PCT / 100) * 100) ∧
    scan_kelly_pct 60 (-150) 20 ≤ scan_kelly_pct 60 (-150) 0 ∧
    1/2 * scan_kelly_frac 60 (-150) 0 ≤ scan_kelly_frac 60 (-150) 0 :=
  C5_scan_kelly 60 (-150) 0 20 (by norm_num)

/-- The key tuple `(Matchup, Player, Market, Side, Line)` used by
`correlation_penalty` and the parlay helpers. -/
structure BetKey where
  matchup : String
  player : String
  market : String
  side : String
  line : ℚ
deriving DecidableEq

/-- Penalty points `correlation_penalty` accumulates for key `k` in its
same-player pass: groups of more than one bet on a player get progressive
penalties `int(min(20, i·5)·mult)` per position `i`, with `mult = 0.5`
when the group spans more than one market. -/
def player_penalty (rows : List BetKey) (k : BetKey) : ℤ :=
  let ks := rows.filter (fun r => r.player = k.player)
  if 1 < ks.length then
    let mult : ℚ := if 1 < ((ks.map (fun r => r.market)).dedup).length then 0.5 else 1.0
    (ks.enum.map (fun ik =>
      if ik.2 = k then ⌊((min 20 (ik.1 * 5) : ℕ) : ℚ) * mult⌋ else 0)).sum
  else 0

/-- Penalty points `correlation_penalty` accumulates for key `k` in its
game-concentration pass: games with more than two bets get
`max(0, int((len−2)·3·(1 − diversity·0.5)))` added per bet, where
diversity grows with the number of distinct players and markets. -/
def game_penalty (rows : List BetKey) (k : BetKey) : ℤ :=
  let ks := rows.filter (fun r => r.matchup = k.matchup)
  if 2 < ks.length then
    let up := ((ks.map (fun r => r.player)).dedup).length
    let um := ((ks.map (fun r => r.market)).dedup).length
    let diversity : ℚ := min 1 ((((up + um : ℕ)) : ℚ) / ((ks.length : ℚ) * 2))
    let pnlty : ℤ := max 0 ⌊(((ks.length : ℚ) - 2) * 3 * (1 - diversity * 0.5))⌋
    pnlty * ((ks.filter (fun r => r = k)).length : ℤ)
  else 0

/-- The `pen` map of source `correlation_penalty` at key `k` (the flag map
is presentation only and not modelled). -/
def correlation_penalty_of (rows : List BetKey) (k : BetKey) : ℤ :=
  player_penalty rows k + game_penalty rows k

/-- The `total_pts` accumulated by `_parlay_independence_discount`: the
sum of each leg's penalty entry. -/
def parlay_total_penalty (legs : List BetKey) : ℤ :=
  (legs.map (fun r => correlation_penalty_of legs r)).sum

/-- One parlay leg: the candidate-row fields the parlay helpers read. -/
structure ParlayLeg where
  matchup : String
  player : String
  market : String
  side : String
  line : ℚ
  trueProbPct : ℚ
  fdOdds : ℤ
deriving DecidableEq

/-- The key tuple `_parlay_independence_discount` builds from a leg row. -/
def legKey (r : ParlayLeg) : BetKey :=
  ⟨r.matchup, r.player, r.market, r.side, r.line⟩

/-- Source `_row_true_prob`: `row["True Prob %"] / 100`. -/
def _row_true_prob (r : ParlayLeg) : ℚ := r.trueProbPct / 100

/-- Source `_row_dec_odds`: decimal odds of `row["FD Odds"]`. -/
def _row_dec_odds (r : ParlayLeg) : ℚ := american_to_decimal r.fdOdds

/-- Source `_parlay_independence_discount`:
`max(0.30, exp(−total_pts/20))`. -/
noncomputable def _parlay_independence_discount (legs : List ParlayLeg) : ℝ :=
  let total_pts := parlay_total_penalty (legs.map legKey)
  max 0.30 (Real.exp (-(total_pts : ℝ) / 20))

/-- Python `round(x, 2)` over the reals (for `_parlay_metrics`' EV%). -/
noncomputable def round2R (x : ℝ) : ℝ :=
  ((if x * 100 - ⌊x * 100⌋ < 1/2 then ⌊x * 100⌋
    else if 1/2 < x * 100 - ⌊x * 100⌋ then ⌊x * 100⌋ + 1
    else if 2 ∣ ⌊x * 100⌋ then ⌊x * 100⌋ else ⌊x * 100⌋ + 1 : ℤ) : ℝ) / 100

/-- Source `_parlay_metrics`: multiply leg probabilities and decimal odds,
apply the independence discount, return `(p, dec, EV%)`. -/
noncomputable def _parlay_metrics (legs : List ParlayLeg) : ℝ × ℝ × ℝ :=
  if legs = [] then (0, 1, -100)
  else
    let p₀ : ℝ := ((legs.map (fun r => ((_row_true_prob r : ℚ) : ℝ))).prod)
    let dec : ℝ := ((legs.map (fun r => ((_row_dec_odds r : ℚ) : ℝ))).prod)
    let p := p₀ * _parlay_independence_discount legs
    let ev := p * dec - 1
    (p, dec, round2R (ev * 100))

theorem player_penalty_nonneg (rows : List BetKey) (k : BetKey) :
    0 ≤ player_penalty rows k := by
  simp only [player_penalty]
  split_ifs with h1 h2
  · apply List.sum_nonneg
    intro x hx
    rcases List.mem_map.mp hx with ⟨ik, _, rfl⟩
    split_ifs
    · exact Int.floor_nonneg.mpr (by positivity)
    · exact le_rfl
  · apply List.sum_nonneg
    intro x hx
    rcases List.mem_map.mp hx with ⟨ik, _, rfl⟩
    split_ifs
    · exact Int.floor_nonneg.mpr (by positivity)
    · exact le_rfl
  · exact le_rfl

theorem game_penalty_nonneg (rows : List BetKey) (k : BetKey) :
    0 ≤ game_penalty rows k := by
  simp only [game_penalty]
  split_ifs
  · exact mul_nonneg (le_max_left _ _) (by positivity)
  · exact le_rfl

theorem parlay_total_penalty_nonneg (legs : List BetKey) :
    0 ≤ parlay_total_penalty legs := by
  apply List.sum_nonneg
  intro x hx
  rcases List.mem_map.mp hx with ⟨r, _, rfl⟩
  exact add_nonneg (player_penalty_nonneg _ _) (game_penalty_nonneg _ _)

theorem parlay_discount_le_one (legs : List ParlayLeg) :
    _parlay_independence_discount legs ≤ 1 := by
  simp only [_parlay_independence_discount]
  apply max_le (by norm_num)
  have hpts : (0 : ℝ) ≤ (parlay_total_penalty (legs.map legKey) : ℝ) := by
    exact_mod_cast parlay_total_penalty_nonneg (legs.map legKey)
  calc Real.exp (-(parlay_total_penalty (legs.map legKey) : ℝ) / 20)
      ≤ Real.exp 0 := Real.exp_le_exp.mpr (by linarith)
    _ = 1 := Real.exp_zero

theorem parlay_discount_nonneg (legs : List ParlayLeg) :
    0 ≤ _parlay_independence_discount legs :=
  le_trans (by norm_num) (le_max_left _ _)

/-- C7: for a non-empty list of parlay legs, `_parlay_metrics` returns
combined decimal odds equal to the product of leg decimal odds, and a
combined hit probability equal to the product of leg probabilities times
the discount `max(0.30, exp(−total_penalty/20))`; the correlation
penalties are non-negative, so the discount is at most 1 and the combined
probability never exceeds the plain product of leg probabilities. -/
theorem C7_parlay_metrics (legs : List ParlayLeg) (hne : legs ≠ [])
    (hp : ∀ r ∈ legs, 0 ≤ r.trueProbPct) :
    (_parlay_metrics legs).2.1 =
      (legs.map (fun r => ((_row_dec_odds r : ℚ) : ℝ))).prod ∧
    (_parlay_metrics legs).1 =
      (legs.map (fun r => ((_row_true_prob r : ℚ) : ℝ))).prod *
        _parlay_independence_discount legs ∧
    _parlay_independence_discount legs ≤ 1 ∧
    (_parlay_metrics legs).1 ≤
      (legs.map (fun r => ((_row_true_prob r : ℚ) : ℝ))).prod := by
  have hprod : (0 : ℝ) ≤ (legs.map (fun r => ((_row_true_prob r : ℚ) : ℝ))).prod := by
    apply List.prod_nonneg
    intro x hx
    rcases List.mem_map.mp hx with ⟨r, hr, rfl⟩
    have := hp r hr
    simp only [_row_true_prob]
    positivity
  have h1 : (_parlay_metrics legs).1 =
      (legs.map (fun r => ((_row_true_prob r : ℚ) : ℝ))).prod *
        _parlay_independence_discount legs := by
    simp [_parlay_metrics, hne]
  refine ⟨by simp [_parlay_metrics, hne], h1, parlay_discount_le_one legs, ?_⟩
  rw [h1]
  calc (legs.map (fun r => ((_row_true_prob r : ℚ) : ℝ))).prod *
        _parlay_independence_discount legs
      ≤ (legs.map (fun r => ((_row_true_prob r : ℚ) : ℝ))).prod * 1 :=
        mul_le_mul_of_nonneg_left (parlay_discount_le_one legs) hprod
    _ = _ := mul_one _

/-- C7 witness: a two-leg parlay on different players in different games
(total correlation penalty 0, discount `max(0.30, exp 0) = 1`). -/
theorem C7_parlay_metrics_witness :
    (_parlay_metrics [⟨"BOS@NYK", "P1", "Points", "Over", 20, 60, -150⟩,
        ⟨"LAL@DEN", "P2", "Assists", "Under", 8, 55, 120⟩]).1 ≤
      (List.map (fun r => ((_row_true_prob r : ℚ) : ℝ))
        [⟨"BOS@NYK", "P1", "Points", "Over", 20, 60, -150⟩,
         ⟨"LAL@DEN", "P2", "Assists", "Under", 8, 55, 120⟩]).prod :=
  (C7_parlay_metrics
    [⟨"BOS@NYK", "P1", "Points", "Over", 20, 60, -150⟩,
     ⟨"LAL@DEN", "P2", "Assists", "Under", 8, 55, 120⟩] (by simp)
    (by
      intro r hr
      rcases List.mem_cons.mp hr with rfl | hr2
      · norm_num
      · rcases List.mem_cons.mp hr2 with rfl | hr3
        · norm_num
        · simp at hr3)).2.2.2

/-- A ranked candidate row as the `scan_props` ranking stage reads it:
the confidence used as the sort key and the matchup/player fields used by
the portfolio caps (the remaining row fields ride along unchanged and are
irrelevant to ordering and capping). -/
structure RankedRow where
  confidence : ℤ
  matchup : String
  player : String
deriving DecidableEq

/-- Source `final.sort(key=lambda rr: rr["Confidence"], reverse=True)`:
Python's stable descending sort — equal-confidence rows keep their
arrival order. -/
def sort_by_confidence (rows : List RankedRow) : List RankedRow :=
  List.insertionSort (fun a b => b.confidence ≤ a.confidence) rows

/-- Source `enforce_portfolio_caps`: greedy counters per matchup and per
player; a row is dropped once its game or player quota is filled. -/
def enforce_portfolio_caps (max_per_game max_per_player : ℕ) :
    List RankedRow → List (String × ℕ) → List (String × ℕ) → List RankedRow
  | [], _, _ => []
  | r :: rest, by_game, by_player =>
    let g := (by_game.lookup r.matchup).getD 0
    let p := (by_player.lookup r.player).getD 0
    if max_per_game ≤ g ∨ max_per_player ≤ p then
      enforce_portfolio_caps max_per_game max_per_player rest by_game by_player
    else
      r :: enforce_portfolio_caps max_per_game max_per_player rest
        ((r.matchup, g + 1) :: by_game) ((r.player, p + 1) :: by_player)

/-- The ranking stage of `scan_props` applied to the merged candidate
pool: stable sort by confidence (descending), portfolio caps, then
truncation to `top_n`. -/
def scan_rank (rows : List RankedRow) (top_n max_per_game max_per_player : ℕ) :
    List RankedRow :=
  (enforce_portfolio_caps max_per_game max_per_player
    (sort_by_confidence rows) [] []).take top_n

/-- C8 counterexample: merge order does affect the output.  Two
candidates with equal confidence 60 in different games, scanned with
`top_n = 1`: merged as `[A, B]` the output is `[A]`, merged as `[B, A]`
it is `[B]` — the sort is stable on the confidence key alone, so the tie
is broken by arrival order, not by any deterministic tiebreak. -/
theorem C8_merge_order_counterexample :
    ([⟨60, "G1", "P1"⟩, ⟨60, "G2", "P2"⟩] : List RankedRow).Perm
      [⟨60, "G2", "P2"⟩, ⟨60, "G1", "P1"⟩] ∧
    scan_rank [⟨60, "G1", "P1"⟩, ⟨60, "G2", "P2"⟩] 1 2 1 = [⟨60, "G1", "P1"⟩] ∧
    scan_rank [⟨60, "G2", "P2"⟩, ⟨60, "G1", "P1"⟩] 1 2 1 = [⟨60, "G2", "P2"⟩] ∧
    scan_rank [⟨60, "G1", "P1"⟩, ⟨60, "G2", "P2"⟩] 1 2 1 ≠
      scan_rank [⟨60, "G2", "P2"⟩, ⟨60, "G1", "P1"⟩] 1 2 1 := by
  refine ⟨List.Perm.swap _ _ _, ?_, ?_, ?_⟩ <;>
    simp [scan_rank, sort_by_confidence, enforce_portfolio_caps,
      List.insertionSort, List.orderedInsert]

/-- C8 (amended): the output is capped to the requested count, and when
all candidate confidences are distinct the ranked, cap-enforced,
truncated output is the same for every merge order of the same
candidates.  With tied confidences the output can depend on merge order
(see the counterexample): the implemented sort key is confidence alone,
with no EV/probability tiebreak. -/
theorem C8_rank_deterministic (l₁ l₂ : List RankedRow) (hperm : l₁.Perm l₂)
    (hnodup : (l₁.map (fun r => r.confidence)).Nodup)
    (top_n max_per_game max_per_player : ℕ) :
    (scan_rank l₁ top_n max_per_game max_per_player).length ≤ top_n ∧
    scan_rank l₁ top_n max_per_game max_per_player =
      scan_rank l₂ top_n max_per_game max_per_player := by
  constructor
  · exact List.length_take_le _ _
  · suffices hs : sort_by_confidence l₁ = sort_by_confidence l₂ by
      simp only [scan_rank, hs]
    haveI : IsTotal RankedRow (fun a b => b.confidence ≤ a.confidence) :=
      ⟨fun a b => le_total b.confidence a.confidence⟩
    haveI : IsTrans RankedRow (fun a b => b.confidence ≤ a.confidence) :=
      ⟨fun a b c hab hbc => le_trans hbc hab⟩
    have hs₁ := List.sorted_insertionSort
      (fun a b : RankedRow => b.confidence ≤ a.confidence) l₁
    have hs₂ := List.sorted_insertionSort
      (fun a b : RankedRow => b.confidence ≤ a.confidence) l₂
    have hp₁ := List.perm_insertionSort
      (fun a b : RankedRow => b.confidence ≤ a.confidence) l₁
    have hp₂ := List.perm_insertionSort
      (fun a b : RankedRow => b.confidence ≤ a.confidence) l₂
    have hnodup₁ : ((sort_by_confidence l₁).map (fun r => r.confidence)).Nodup :=
      ((hp₁.map (fun r => r.confidence)).nodup_iff).mpr hnodup
    have hnodupl₂ : (l₂.map (fun r => r.confidence)).Nodup :=
      ((hperm.map (fun r => r.confidence)).nodup_iff).mp hnodup
    have hnodup₂ : ((sort_by_confidence l₂).map (fun r => r.confidence)).Nodup :=
      ((hp₂.map (fun r => r.confidence)).nodup_iff).mpr hnodupl₂
    have hstrict : ∀ (l : List RankedRow),
        List.Sorted (fun a b : RankedRow => b.confidence ≤ a.confidence) l →
        (l.map (fun r => r.confidence)).Nodup →
        List.Pairwise (fun a b : RankedRow => b.confidence < a.confidence) l := by
      intro l hsorted hnd
      have hne : List.Pairwise
          (fun a b : RankedRow => a.confidence ≠ b.confidence) l :=
        List.pairwise_map.mp hnd
      exact (hsorted.and hne).imp
        (fun hab => lt_of_le_of_ne hab.1 (Ne.symm hab.2))
    haveI : IsAntisymm RankedRow (fun a b => b.confidence < a.confidence) :=
      ⟨fun a b h1 h2 => absurd (lt_trans h1 h2) (lt_irrefl _)⟩
    exact List.eq_of_perm_of_sorted (hp₁.trans (hperm.trans hp₂.symm))
      (hstrict _ hs₁ hnodup₁) (hstrict _ hs₂ hnodup₂)

/-- C8 witness: two candidates with distinct confidences 61 and 60 give
the same output in either merge order. -/
theorem C8_rank_deterministic_witness :
    (scan_rank [⟨61, "G1", "P1"⟩, ⟨60, "G2", "P2"⟩] 1 2 1).length ≤ 1 ∧
    scan_rank [⟨61, "G1", "P1"⟩, ⟨60, "G2", "P2"⟩] 1 2 1 =
      scan_rank [⟨60, "G2", "P2"⟩, ⟨61, "G1", "P1"⟩] 1 2 1 :=
  C8_rank_deterministic [⟨61, "G1", "P1"⟩, ⟨60, "G2", "P2"⟩]
    [⟨60, "G2", "P2"⟩, ⟨61, "G1", "P1"⟩] (List.Perm.swap _ _ _)
    (by decide) 1 2 1

/-- One entry of the source `WINDOW_PRESETS` dict. -/
structure WindowPreset where
  label : String
  sort : String
  min_books_delta : ℤ
  trim : ℚ
  ml_bump_scale : ℚ
  spread_bump_scale : ℚ
  require_ev : Bool
  require_gap : Bool
  min_gap_cents : ℤ
  min_avg_gap_cents : ℤ
  min_true_prob_pct : ℚ
  steam_window_sec : ℤ
  fd_odds_min : Option ℤ
  fd_odds_max : Option ℤ
  mode : Option String

/-- Source `WINDOW_PRESETS`: morning, pretip and plus_odds configuration
bundles (absent keys modelled as `none`). -/
def WINDOW_PRESETS : List (String × WindowPreset) := [
  ("morning", ⟨"Morning (soft)", "EV", -1, 0.20, 0.5, 0.4, true, true,
    5, 5, 52, 14400, none, none, none⟩),
  ("pretip", ⟨"Pre-tip (high-confidence)", "CONF", -2, 0.15, 1.0, 0.6,
    false, false, 0, 0, 55, 1800, some (-240), some (-140), some "confidence"⟩),
  ("plus_odds", ⟨"Plus Odds Hunter", "EV", 0, 0.18, 0.7, 0.5, true, true,
    8, 6, 45, 7200, some 100, some 400, some "plus_odds"⟩)]

/-- Core of source `minutes_confidence_adjust` once the recent-minutes
read `(median, IQR, sample size)` is in hand: fewer than 5 games is a
fixed −5.0 penalty, 5–6 games use conservative bands, 7+ games the full
bands.  (The human-readable tag string is presentation and not
modelled.) -/
def minutes_adjust_core (med iqr : ℚ) (n : ℕ) : ℚ :=
  if n < 5 then -5
  else if n < 7 then
    if 32 ≤ med ∧ iqr ≤ 3 then 2
    else if 28 ≤ med ∧ iqr ≤ 4 then 1
    else if med < 18 ∨ 10 ≤ iqr then -4
    else -1
  else
    if 32 ≤ med ∧ iqr ≤ 4 then 3
    else if 28 ≤ med ∧ iqr ≤ 5 then 2
    else if 24 ≤ med ∧ iqr ≤ 6 then 1
    else if med < 16 ∨ 12 ≤ iqr then -3
    else if med < 20 ∨ 9 ≤ iqr then -2
    else 0

/-- Python `min(xs)` on a list (call sites pass non-empty lists). -/
def listMin (xs : List ℚ) : ℚ :=
  match xs with
  | [] => 0
  | x :: r => r.foldl min x

/-- Python `max(xs)` on a list (call sites pass non-empty lists). -/
def listMax (xs : List ℚ) : ℚ :=
  match xs with
  | [] => 0
  | x :: r => r.foldl max x

/-- Python `statistics.quantiles(data, n=4)` (exclusive method) on sorted
data: the `i`-th cut point, `i ∈ {1,2,3}`. -/
def quantile_exc4 (data : List ℚ) (i : ℕ) : ℚ :=
  let ld := data.length
  let j0 := (i * (ld + 1)) / 4
  let δ : ℕ := (i * (ld + 1)) % 4
  let j := min (max j0 1) (ld - 1)
  (data.getD (j - 1) 0 * ((4 : ℚ) - (δ : ℚ)) + data.getD j 0 * (δ : ℚ)) / 4

/-- The consensus-dispersion IQR computed in the props path of
`_process_one_event`: quartiles for 4+ books, half the range for exactly
3, a fixed 0.20 otherwise. -/
def prop_iqr (fair_probs : List ℚ) : ℚ :=
  let qs := List.insertionSort (· ≤ ·) fair_probs
  if 4 ≤ fair_probs.length then
    max (1/1000000) (quantile_exc4 qs 3 - quantile_exc4 qs 1)
  else if fair_probs.length = 3 then
    max (1/1000000) ((qs.getD 2 0 - qs.getD 0 0) * 0.5)
  else 0.20

/-- The inputs one `(player, market, line, side)` iteration of the props
path of `_process_one_event` reads.  Quantities produced by the external
feeds — the fair-probability/weight samples from the competitor books,
the best/average price gaps, the statistical model value `p_model` with
its coefficient of variation, the injury and steam adjustments, and the
recent-minutes read `(median, IQR, games)` — are passed in as data; the
preset-derived scan parameters are passed as `scan_props` passes them. -/
structure PropInputs where
  window_mode : String
  min_books : ℕ
  trim_used : ℚ
  require_ev : Bool
  require_gap : Bool
  min_gap_cents : ℤ
  min_avg_gap_cents : ℤ
  min_true_prob_pct : ℚ
  min_ev : ℚ
  fd_price : ℤ
  cents_delta : ℤ
  cents_delta_avg : ℤ
  fair_probs : List ℚ
  fair_wgts : List ℚ
  p_model : Option ℚ
  cv : ℚ
  inj_adj : ℚ
  steam_adj : ℚ
  minutes_med : ℚ
  minutes_iqr : ℚ
  minutes_n : ℕ

/-- The reference-price filter applied first in the props path: presets
in `confidence`/`plus_odds` mode only keep prices inside their
`[fd_odds_min, fd_odds_max]` band. -/
def prop_odds_ok (args : PropInputs) : Bool :=
  if args.window_mode = "pretip" ∨ args.window_mode = "plus_odds" then
    match WINDOW_PRESETS.lookup args.window_mode with
    | some preset =>
      if preset.mode = some "confidence" ∨ preset.mode = some "plus_odds" then
        decide (preset.fd_odds_min.getD (-999) ≤ args.fd_price ∧
          args.fd_price ≤ preset.fd_odds_max.getD 999)
      else true
    | none => true
  else true

/-- The market/model blend weight `alpha_market` of the props path. -/
def prop_alpha (args : PropInputs) : ℚ :=
  if 0.6 < args.cv then 0.90
  else if 0.4 < args.cv then 0.85
  else max 0.75 (min 0.90 (0.90 - prop_iqr args.fair_probs / 0.35))

/-- The blended, clamped `true_prob` of the props path: blend the model
against the consensus, clamp into the buffered sample range, then within
`±0.10` of the sample median. -/
def prop_true_prob (args : PropInputs) (market_prob : ℚ) : ℚ :=
  let tp := match args.p_model with
    | none => market_prob
    | some pm => prop_alpha args * market_prob + (1 - prop_alpha args) * pm
  let p_lo := listMin args.fair_probs
  let p_hi := listMax args.fair_probs
  let tp := max (p_lo - 0.05) (min (p_hi + 0.05) tp)
  let p_med := median args.fair_probs
  let tp := min tp (p_med + 0.10)
  max tp (p_med - 0.10)

/-- The confidence/badge computation of the props path: the plus-odds
scorer in `plus_odds` mode, the standard scorer otherwise. -/
def prop_conf_badge (args : PropInputs) (true_prob : ℚ) : ℤ × String :=
  if args.window_mode = "plus_odds" then
    plus_odds_confidence_score true_prob args.fd_price args.cents_delta
      (args.fair_probs.length : ℤ) args.inj_adj
      (minutes_adjust_core args.minutes_med args.minutes_iqr args.minutes_n)
  else
    confidence_score_from_prob true_prob args.inj_adj
      (minutes_adjust_core args.minutes_med args.minutes_iqr args.minutes_n)
      args.steam_adj

/-- `EV %` of the props path: `round(((true_prob · fd_dec) − 1) · 100, 2)`. -/
def prop_ev_pct (args : PropInputs) (true_prob : ℚ) : ℚ :=
  round2 ((true_prob * american_to_decimal args.fd_price - 1) * 100)

/-- The gap/probability/EV filters and the confidence threshold of the
props path, in source order. -/
def prop_filters_ok (args : PropInputs) (true_prob ev_pct : ℚ) (conf : ℤ) : Bool :=
  let edge_ok :=
    if args.require_gap then
      if args.window_mode = "morning" then
        decide (args.min_gap_cents ≤ args.cents_delta ∧
          args.min_avg_gap_cents ≤ args.cents_delta_avg)
      else decide (args.min_gap_cents ≤ args.cents_delta)
    else true
  let prob_ok :=
    if 0 < args.min_true_prob_pct then
      decide (args.min_true_prob_pct ≤ round2 (true_prob * 100))
    else true
  let ev_ok := if args.require_ev then decide (args.min_ev ≤ ev_pct) else true
  edge_ok && prob_ok && ev_ok && decide (args.min_true_prob_pct ≤ (conf : ℚ))

/-- `Kelly %` as the props path writes it into the row (before the
ranking stage recomputes it with the correlation haircut). -/
def prop_kelly_pct (args : PropInputs) (true_prob : ℚ) : ℚ :=
  round2 (min KELLY_CAP_PCT (max 0
    (kelly_fraction true_prob (american_to_decimal args.fd_price) *
      CURRENT_KELLY_MULT * 100)))

/-- The numeric fields of the candidate row the props path emits. -/
structure PropRow where
  fdOdds : ℤ
  booksUsed : ℕ
  fairProbPct : ℚ
  trueProbPct : ℚ
  evPct : ℚ
  confidence : ℤ
  badge : String
  kellyPct : ℚ
deriving DecidableEq

/-- The emitted row for a candidate that survives every filter. -/
def prop_row_of (args : PropInputs) (market_prob : ℚ) : PropRow :=
  let true_prob := prop_true_prob args market_prob
  ⟨args.fd_price, args.fair_probs.length, round2 (market_prob * 100),
    round2 (true_prob * 100), prop_ev_pct args true_prob,
    (prop_conf_badge args true_prob).1, (prop_conf_badge args true_prob).2,
    prop_kelly_pct args true_prob⟩

/-- One candidate decision of the props path of `_process_one_event`:
odds filter, the `books_used < min_books` hard exclusion, the consensus
computation, then the filter stack; `some row` is the candidate appended
to the event's output, `none` is `continue`. -/
def processProp (args : PropInputs) : Option PropRow :=
  if prop_odds_ok args = false then none
  else if args.fair_probs.length < args.min_books then none
  else
    match trimmed_weighted_mean args.fair_probs args.fair_wgts args.trim_used with
    | none => none
    | some market_prob =>
      let true_prob := prop_true_prob args market_prob
      if prop_filters_ok args true_prob (prop_ev_pct args true_prob)
          (prop_conf_badge args true_prob).1 = false then none
      else some (prop_row_of args market_prob)

/-- A concrete pre-tip props candidate: price −150, three books at fair
probabilities 0.60/0.62/0.64 with unit weights, model probability 0.62 at
CV 0.2, no injury or steam adjustment, and a minutes read of only 4
games. -/
def demo_args : PropInputs :=
  ⟨"pretip", 3, 3/20, false, false, 0, 0, 55, 2, -150, 0, 0,
    [3/5, 31/50, 16/25], [1, 1, 1], some (31/50), 1/5, 0, 0, 30, 3, 4⟩

/-- The row `demo_args` produces: consensus 62%, EV 3.33%, confidence 57
(the −5 minutes penalty applied), badge LOW, Kelly 2.5%. -/
def demo_row : PropRow := ⟨-150, 3, 62, 62, 333/100, 57, "LOW", 5/2⟩

theorem demo_twm :
    trimmed_weighted_mean [3/5, 31/50, 16/25] [1, 1, 1] (3/20) = some (31/50) := by
  have hne : ([3/5, 31/50, 16/25] : List ℚ) ≠ [] := by simp
  rw [twm_eq_core (3/20) hne (by norm_num)]
  norm_num [twm_core, median, List.insertionSort, List.orderedInsert,
    List.getD]

theorem demo_true_prob : prop_true_prob demo_args (31/50) = 31/50 := by
  norm_num [prop_true_prob, prop_alpha, prop_iqr, listMin, listMax, median,
    demo_args, List.insertionSort, List.orderedInsert, List.getD,
    quantile_exc4]

theorem demo_conf : prop_conf_badge demo_args (31/50) = (57, "LOW") := by
  have hmode : ¬ ("pretip" : String) = "plus_odds" := by decide
  norm_num [prop_conf_badge, demo_args, hmode, confidence_score_from_prob,
    minutes_adjust_core, clamp, pyRound, badge_of]

theorem demo_ev : prop_ev_pct demo_args (31/50) = 333/100 := by
  norm_num [prop_ev_pct, demo_args, american_to_decimal, round2, pyRound]

theorem demo_kelly : prop_kelly_pct demo_args (31/50) = 5/2 := by
  norm_num [prop_kelly_pct, demo_args, kelly_fraction, american_to_decimal,
    round2, pyRound, KELLY_CAP_PCT, CURRENT_KELLY_MULT]

theorem demo_odds : prop_odds_ok demo_args = true := by decide

theorem demo_filters : prop_filters_ok demo_args (31/50) (333/100) 57 = true := by
  norm_num [prop_filters_ok, demo_args, round2, pyRound]

theorem demo_emission : processProp demo_args = some demo_row := by
  have h1 : demo_args.fair_probs = [3/5, 31/50, 16/25] := rfl
  have h2 : demo_args.fair_wgts = [1, 1, 1] := rfl
  have h3 : demo_args.trim_used = 3/20 := rfl
  have h4 : demo_args.min_books = 3 := rfl
  have h5 : demo_args.fd_price = -150 := rfl
  simp only [processProp, demo_odds, h1, h2, h3, h4, demo_twm]
  norm_num [demo_true_prob, demo_conf, demo_ev, demo_filters, demo_kelly,
    prop_row_of, demo_row, round2, pyRound, h1, h5]

/-- C3 (amended): a candidate with fewer contributing books than the
preset's effective minimum is hard-excluded (no emitted row can have
fewer), but a minutes read of fewer than 5 games is NOT an exclusion:
`minutes_confidence_adjust` returns the fixed soft penalty `−5.0`
confidence points and the candidate remains eligible (see the
counterexample for an emitted row with a 4-game read). -/
theorem C3_insufficient_sample (args : PropInputs) (row : PropRow)
    (h : processProp args = some row) :
    args.min_books ≤ args.fair_probs.length ∧
    (args.minutes_n < 5 →
      minutes_adjust_core args.minutes_med args.minutes_iqr args.minutes_n = -5) := by
  constructor
  · unfold processProp at h
    split_ifs at h with hA hB
    omega
  · intro hn
    unfold minutes_adjust_core
    rw [if_pos hn]

/-- C3 counterexample: a concrete candidate whose minutes read has only 4
games (fewer than 5) is still emitted by the scan — with the −5
confidence penalty — not excluded from output. -/
theorem C3_minutes_soft_penalty_counterexample :
    demo_args.minutes_n < 5 ∧ processProp demo_args = some demo_row :=
  ⟨by decide, demo_emission⟩

/-- C3 witness: the amended exclusion/penalty statement at the concrete
emitted candidate. -/
theorem C3_insufficient_sample_witness :
    demo_args.min_books ≤ demo_args.fair_probs.length ∧
    (demo_args.minutes_n < 5 →
      minutes_adjust_core demo_args.minutes_med demo_args.minutes_iqr
        demo_args.minutes_n = -5) :=
  C3_insufficient_sample demo_args demo_row demo_emission

/-- C6: every emitted candidate's `EV %` equals
`(true_probability × decimal_odds − 1) × 100` rounded to two decimals,
where `true_probability` is the blended probability computed from the
consensus of that candidate's book sample; and the break-even scenario
(price −150, true probability 0.60) yields exactly 0.00%. -/
theorem C6_ev_percentage (args : PropInputs) (row : PropRow)
    (h : processProp args = some row) :
    (∃ market_prob,
      trimmed_weighted_mean args.fair_probs args.fair_wgts args.trim_used =
        some market_prob ∧
      row.evPct = round2 ((prop_true_prob args market_prob *
        american_to_decimal args.fd_price - 1) * 100)) ∧
    round2 ((3/5 * american_to_decimal (-150) - 1) * 100) = 0 := by
  constructor
  · unfold processProp at h
    split_ifs at h with hA hB
    cases htwm : trimmed_weighted_mean args.fair_probs args.fair_wgts
        args.trim_used with
    | none =>
      rw [htwm] at h
      exact absurd h (by simp)
    | some mp =>
      rw [htwm] at h
      dsimp only at h
      split_ifs at h with hf
      refine ⟨mp, rfl, ?_⟩
      rw [← Option.some.inj h]
      rfl
  · norm_num [american_to_decimal, round2, pyRound]

/-- C6 witness: the EV formula at the concrete emitted candidate
(consensus 62%, price −150, EV 3.33%). -/
theorem C6_ev_percentage_witness :
    (∃ market_prob,
      trimmed_weighted_mean demo_args.fair_probs demo_args.fair_wgts
        demo_args.trim_used = some market_prob ∧
      demo_row.evPct = round2 ((prop_true_prob demo_args market_prob *
        american_to_decimal demo_args.fd_price - 1) * 100)) ∧
    round2 ((3/5 * american_to_decimal (-150) - 1) * 100) = 0 :=
  C6_ev_percentage demo_args demo_row demo_emission

end NbaBettor
